import Mathlib

/-!
Shallow embedding of `src/scraper.py` (internship-tracker).

The embedding models the two pieces of logic that the claims are about:

* `parse_markdown_table` — the markdown-table feed parser
  (`scraper.py`, lines 29–113), translated over Lean strings with
  Python's `str.split` / `str.strip` / `re.search` behaviour modelled
  explicitly on `List Char`;
* the reconciliation step of `update_sheet`
  (`scraper.py`, lines 123–170), rendered as a pure transform
  `reconcile` from the prior snapshot and the fresh listings to the new
  sheet rows, with the dictionary `existing_map` modelled by the
  last-occurrence-wins lookup `lookupDate`, and the clear/append store
  effect of `update_sheet` and of `main` modelled by `update_sheet_store`
  and `main_store`.
-/

/-- A parsed internship listing, as produced fresh each run by the
markdown parser (the dicts appended in `scraper.py` lines 96–101). -/
structure Listing where
  company : String
  role : String
  location : String
  link : String
deriving DecidableEq, Repr

/-- Python `str.split(sep)` for a single-character separator: keeps empty
fragments, `"".split(sep) == [""]`. -/
def splitOnChar (sep : Char) : List Char → List (List Char)
  | [] => [[]]
  | c :: rest =>
    match splitOnChar sep rest with
    | [] => [[]]
    | h :: t => if c = sep then [] :: h :: t else (c :: h) :: t

/-- Python `str.split(sep)` on strings. -/
def pySplit (sep : Char) (s : String) : List String :=
  (splitOnChar sep s.toList).map String.mk

/-- Python `str.strip()`: drop whitespace from both ends. -/
def pyStrip (s : String) : String :=
  String.mk (((s.toList.dropWhile Char.isWhitespace).reverse.dropWhile Char.isWhitespace).reverse)

/-- Python `str.lower()` (ASCII case folding, as used on company names). -/
def pyLower (s : String) : String :=
  String.mk (s.toList.map Char.toLower)

/-- Python `pat in s` substring test, on char lists. -/
def hasSub (pat : List Char) : List Char → Bool
  | [] => pat.isEmpty
  | c :: rest => pat.isPrefixOf (c :: rest) || hasSub pat rest

/-- Python `pat in s` substring test, on strings. -/
def containsSub (s pat : String) : Bool :=
  hasSub pat.toList s.toList

/-- Python `s.startswith('|')`. -/
def startsWithPipe (s : String) : Bool :=
  match s.toList with
  | '|' :: _ => true
  | _ => false

/-- Attempt to match the regex `\[([^\]]+)\]\(([^)]+)\)` anchored at the
start of the char list, returning the two capture groups (display text,
url).  The greedy classes `[^\]]+` / `[^)]+` consume exactly up to the
next `]` / `)`. -/
def linkAt (l : List Char) : Option (List Char × List Char) :=
  match l with
  | '[' :: rest =>
    match rest.takeWhile (fun c => c ≠ ']'), rest.dropWhile (fun c => c ≠ ']') with
    | t :: ts, ']' :: '(' :: rest2 =>
      match rest2.takeWhile (fun c => c ≠ ')'), rest2.dropWhile (fun c => c ≠ ')') with
      | u :: us, ')' :: _ => some (t :: ts, u :: us)
      | _, _ => none
    | _, _ => none
  | _ => none

/-- Python `re.search(r'\[([^\]]+)\]\(([^)]+)\)', s)`: leftmost match. -/
def searchLink : List Char → Option (List Char × List Char)
  | [] => none
  | c :: rest =>
    match linkAt (c :: rest) with
    | some r => some r
    | none => searchLink rest

/-- Attempt to match `\[([^\]]+)\]` anchored at the start of the list. -/
def bracketAt (l : List Char) : Option (List Char) :=
  match l with
  | '[' :: rest =>
    match rest.takeWhile (fun c => c ≠ ']'), rest.dropWhile (fun c => c ≠ ']') with
    | t :: ts, ']' :: _ => some (t :: ts)
    | _, _ => none
  | _ => none

/-- Python `re.search(r'\[([^\]]+)\]', s)`: leftmost match. -/
def searchBracket : List Char → Option (List Char)
  | [] => none
  | c :: rest =>
    match bracketAt (c :: rest) with
    | some t => some t
    | none => searchBracket rest

/-- The `[text](url)` extraction used for the company and location cells
(`scraper.py` lines 68–74 and 83–89): on a match the pair of capture
groups, otherwise the whole cell with an empty url. -/
def extractLink (cell : String) : String × String :=
  match searchLink cell.toList with
  | some (t, u) => (String.mk t, String.mk u)
  | none => (cell, "")

/-- The `\[([^\]]+)\]` extraction used for the role cell
(`scraper.py` lines 77–79). -/
def extractDisplay (cell : String) : String :=
  match searchBracket cell.toList with
  | some t => String.mk t
  | none => cell

/-- `scraper.py` lines 56–58: split a data row on the pipe, strip each
fragment and keep only the non-empty ones. -/
def splitCells (line : String) : List String :=
  ((pySplit '|' line).map pyStrip).filter (fun c => c ≠ "")

/-- Cells as the spec sentence behind C4 describes them: split on the
pipe, trim, and discard only the empty leading and trailing fragments
produced by the outer pipes, keeping interior empty cells. -/
def splitCellsSpec (line : String) : List String :=
  ((((pySplit '|' line).map pyStrip).dropWhile (fun c => c = "")).reverse.dropWhile
    (fun c => c = "")).reverse

/-- One data row of the table (`scraper.py` lines 54–101): at least 3
cells are required, the company/role/location cells feed the three
extractions, the final link is the application link if non-empty else
the company link, and rows whose company is empty or a header token are
skipped. -/
def parseRow (line : String) : Option Listing :=
  match splitCells line with
  | company_cell :: role_cell :: location_cell :: _ =>
    if (extractLink company_cell).1 ≠ "" ∧
        pyLower (extractLink company_cell).1 ≠ "company" ∧
        pyLower (extractLink company_cell).1 ≠ "---" ∧
        pyLower (extractLink company_cell).1 ≠ "" then
      some (Listing.mk (extractLink company_cell).1 (extractDisplay role_cell)
        (extractLink location_cell).1
        (if (extractLink location_cell).2 = "" then (extractLink company_cell).2
         else (extractLink location_cell).2))
    else
      none
  | _ => none

/-- `scraper.py` line 42: the header line contains the three column
names and starts with a pipe (checked on the stripped line). -/
def isHeaderLine (line : String) : Bool :=
  containsSub line "Company" && containsSub line "Role" && containsSub line "Location" &&
    startsWithPipe line

/-- The line scan of `parse_markdown_table` (`scraper.py` lines 38–106),
with the `header_found` / `in_table` flags as parameters; the `break` on
the first non-pipe line after the table returns the empty continuation. -/
def parseLoop : List String → Bool → Bool → List Listing
  | [], _, _ => []
  | raw :: rest, headerFound, inTable =>
    if !headerFound && isHeaderLine (pyStrip raw) then
      parseLoop rest true inTable
    else if headerFound && !inTable && containsSub (pyStrip raw) "---" then
      parseLoop rest headerFound true
    else if inTable && startsWithPipe (pyStrip raw) then
      match parseRow (pyStrip raw) with
      | some it => it :: parseLoop rest headerFound inTable
      | none => parseLoop rest headerFound inTable
    else if inTable then
      []
    else
      parseLoop rest headerFound inTable

/-- `parse_markdown_table` (`scraper.py` lines 29–113). -/
def parse_markdown_table (content : String) : List Listing :=
  parseLoop (pySplit '\n' content) false false

/-- The composite identity key `f"{company}_{role}"`
(`scraper.py` lines 133 and 144). -/
def mkKey (c r : String) : String := c ++ "_" ++ r

/-- The entry a prior-snapshot row contributes to `existing_map`
(`scraper.py` lines 131–137): rows with at least 2 columns and non-empty
company and role map their key to `row[4] if len(row) > 4 else ''`. -/
def rowEntry (row : List String) : Option (String × String) :=
  match row with
  | c :: r :: rest =>
    if c ≠ "" ∧ r ≠ "" then some (mkKey c r, (c :: r :: rest).getD 4 "") else none
  | _ => none

/-- `existing_map.get(key)` with the Python dict's insertion-overwrite
semantics: the last row contributing an entry for the key wins. -/
def lookupDate : List (List String) → String → Option String
  | [], _ => none
  | row :: rest, k =>
    match lookupDate rest k with
    | some v => some v
    | none =>
      match rowEntry row with
      | some (k2, v) => if k2 = k then some v else none
      | none => none

/-- The row appended for one fresh listing (`scraper.py` lines 143–156):
`date_posted` is the prior snapshot's value for the key if present,
else today's date; `date_last_checked` is today unconditionally. -/
def reconcileRow (today : String) (existing : List (List String)) (it : Listing) :
    List String :=
  [it.company, it.role, it.location, it.link,
    (lookupDate existing (mkKey it.company it.role)).getD today, today]

/-- The `new_data` list built by `update_sheet` (`scraper.py` lines
139–156): one output row per fresh listing, in fetched order. -/
def reconcile (today : String) (existing : List (List String)) (ints : List Listing) :
    List (List String) :=
  ints.map (reconcileRow today existing)

/-- `scraper.py` lines 158–163: the data rows are cleared whenever any
existed. -/
def clearStep (existing : List (List String)) : List (List String) :=
  if existing.length > 0 then [] else existing

/-- Net effect of `update_sheet` on the stored data rows
(`scraper.py` lines 115–170): clear, then append `new_data` when it is
non-empty. -/
def update_sheet_store (today : String) (existing : List (List String))
    (ints : List Listing) : List (List String) :=
  if (reconcile today existing ints).isEmpty then clearStep existing
  else clearStep existing ++ reconcile today existing ints

/-- Net effect of `main` on the stored data rows (`scraper.py` lines
172–187): `update_sheet` runs only when at least one listing was parsed;
with zero listings the store is left untouched. -/
def main_store (today : String) (existing : List (List String)) (content : String) :
    List (List String) :=
  if (parse_markdown_table content).isEmpty then existing
  else update_sheet_store today existing (parse_markdown_table content)

/-- The `try/except` around the prior-snapshot read
(`scraper.py` lines 123–127): a failed read yields the empty snapshot. -/
def readPrior (result : Option (List (List String))) : List (List String) :=
  result.getD []

/-! ### Lemmas about the prior-snapshot lookup -/

/-- A key no row contributes never resolves. -/
theorem lookupDate_eq_none (ys : List (List String)) (k : String)
    (h : ∀ row ∈ ys, ∀ w, rowEntry row ≠ some (k, w)) : lookupDate ys k = none := by
  induction ys with
  | nil => rfl
  | cons row rest ih =>
    have hrest := ih (fun r hr w => h r (List.mem_cons_of_mem _ hr) w)
    simp only [lookupDate, hrest]
    cases he : rowEntry row with
    | none => rfl
    | some p =>
      obtain ⟨k2, v⟩ := p
      by_cases hk : k2 = k
      · exact absurd (hk ▸ he) (h row (List.mem_cons_self _ _) v)
      · simp [hk]

/-- A contributing row in the snapshot makes the lookup resolve. -/
theorem lookupDate_isSome_of_mem (ys : List (List String)) (k v : String)
    (row : List String) (hm : row ∈ ys) (he : rowEntry row = some (k, v)) :
    ∃ w, lookupDate ys k = some w := by
  induction ys with
  | nil => cases hm
  | cons y rest ih =>
    cases hr : lookupDate rest k with
    | some w => exact ⟨w, by simp only [lookupDate, hr]⟩
    | none =>
      rcases List.mem_cons.mp hm with h1 | h1
      · subst h1
        exact ⟨v, by simp [lookupDate, hr, he]⟩
      · obtain ⟨w, hw⟩ := ih h1
        rw [hr] at hw
        exact absurd hw (by simp)

/-- A resolved lookup comes from some contributing row. -/
theorem lookupDate_mem (ys : List (List String)) (k v : String)
    (h : lookupDate ys k = some v) : ∃ row ∈ ys, rowEntry row = some (k, v) := by
  induction ys with
  | nil => exact absurd h (by simp [lookupDate])
  | cons row rest ih =>
    rw [lookupDate] at h
    cases hr : lookupDate rest k with
    | some w =>
      simp only [hr] at h
      injection h with h2
      obtain ⟨row2, hm2, he2⟩ := ih (h2 ▸ hr)
      exact ⟨row2, List.mem_cons_of_mem _ hm2, he2⟩
    | none =>
      simp only [hr] at h
      cases he : rowEntry row with
      | none =>
        simp only [he] at h
        exact absurd h (by simp)
      | some p =>
        obtain ⟨k2, w⟩ := p
        simp only [he] at h
        by_cases hk : k2 = k
        · rw [if_pos hk] at h
          injection h with h2
          exact ⟨row, List.mem_cons_self _ _, by rw [he, hk, h2]⟩
        · rw [if_neg hk] at h
          exact absurd h (by simp)

/-- When every row contributing the key agrees on the value and at least
one row contributes it, the lookup returns that value. -/
theorem lookupDate_eq_of_unique (out : List (List String)) (k v : String)
    (huniq : ∀ row ∈ out, ∀ w, rowEntry row = some (k, w) → w = v)
    (hex : ∃ row ∈ out, rowEntry row = some (k, v)) :
    lookupDate out k = some v := by
  induction out with
  | nil => obtain ⟨row, hm, _⟩ := hex; cases hm
  | cons row rest ih =>
    cases hr : lookupDate rest k with
    | some w =>
      obtain ⟨row2, hm2, he2⟩ := lookupDate_mem rest k w hr
      have hwv : w = v := huniq row2 (List.mem_cons_of_mem _ hm2) w he2
      subst hwv
      simp only [lookupDate, hr]
    | none =>
      obtain ⟨row2, hm2, he2⟩ := hex
      rcases List.mem_cons.mp hm2 with h1 | h1
      · subst h1
        simp [lookupDate, hr, he2]
      · obtain ⟨w, hw⟩ := lookupDate_isSome_of_mem rest k v row2 h1 he2
        rw [hr] at hw
        exact absurd hw (by simp)

/-- Prepending a row never hides a key the tail already resolves. -/
theorem lookupDate_cons_some (y : List String) (ys : List (List String)) (k v : String)
    (h : lookupDate ys k = some v) : lookupDate (y :: ys) k = some v := by
  simp only [lookupDate, h]

/-- The last row of the snapshot contributing a key wins, whatever comes
before it; rows after it that do not contribute the key do not matter. -/
theorem lookupDate_of_entry (pre post : List (List String)) (row : List String)
    (k v : String) (hrow : rowEntry row = some (k, v))
    (hpost : ∀ r ∈ post, ∀ w, rowEntry r ≠ some (k, w)) :
    lookupDate (pre ++ row :: post) k = some v := by
  induction pre with
  | nil =>
    have hnone := lookupDate_eq_none post k hpost
    simp [lookupDate, hnone, hrow]
  | cons p pre ih =>
    rw [List.cons_append]
    exact lookupDate_cons_some _ _ _ _ ih

/-- `row[4]` read with an empty-string default on a row of fewer than
5 columns gives the empty string. -/
theorem getD_four_short (l : List String) (h : l.length < 5) : l.getD 4 "" = "" := by
  match l with
  | [] => rfl
  | [_] => rfl
  | [_, _] => rfl
  | [_, _, _] => rfl
  | [_, _, _, _] => rfl
  | _ :: _ :: _ :: _ :: _ :: _ =>
    simp only [List.length_cons] at h
    omega

/-! ### Reconciler claims -/

/-- C1: for a (company, role) key stored in the prior snapshot as a
well-formed 6-column row (the last row of the snapshot contributing that
key) and present in the fresh fetch, the reconciled output row keeps the
stored `date_first_added` (column 5) unchanged, whatever the listing's
current location and link are; in particular a later run never
overwrites it while the key persists. -/
theorem c1_date_first_added_preserved
    (today c r loc0 lnk0 d lc0 loc lnk : String)
    (pre post : List (List String)) (ints : List Listing)
    (hc : c ≠ "") (hr : r ≠ "")
    (hpost : ∀ row ∈ post, ∀ w, rowEntry row ≠ some (mkKey c r, w))
    (hmem : Listing.mk c r loc lnk ∈ ints) :
    reconcileRow today (pre ++ [c, r, loc0, lnk0, d, lc0] :: post) (Listing.mk c r loc lnk)
      = [c, r, loc, lnk, d, today]
    ∧ [c, r, loc, lnk, d, today] ∈
        reconcile today (pre ++ [c, r, loc0, lnk0, d, lc0] :: post) ints := by
  have hlk : lookupDate (pre ++ [c, r, loc0, lnk0, d, lc0] :: post) (mkKey c r) = some d := by
    apply lookupDate_of_entry
    · show rowEntry [c, r, loc0, lnk0, d, lc0] = some (mkKey c r, d)
      simp only [rowEntry, if_pos (And.intro hc hr)]
      rfl
    · exact hpost
  have h1 : reconcileRow today (pre ++ [c, r, loc0, lnk0, d, lc0] :: post)
      (Listing.mk c r loc lnk) = [c, r, loc, lnk, d, today] := by
    show [c, r, loc, lnk,
        (lookupDate (pre ++ [c, r, loc0, lnk0, d, lc0] :: post) (mkKey c r)).getD today,
        today]
      = [c, r, loc, lnk, d, today]
    rw [hlk]
    rfl
  refine ⟨h1, ?_⟩
  have h2 := List.mem_map_of_mem
    (reconcileRow today (pre ++ [c, r, loc0, lnk0, d, lc0] :: post)) hmem
  rw [h1] at h2
  exact h2

/-- Witness for C1 at a concrete prior snapshot and listing. -/
theorem c1_witness :
    reconcileRow "2026-10-12" [["Acme", "SWE", "NYC", "http://x", "2025-01-01", "2025-06-01"]]
        (Listing.mk "Acme" "SWE" "Remote" "http://y")
      = ["Acme", "SWE", "Remote", "http://y", "2025-01-01", "2026-10-12"]
    ∧ ["Acme", "SWE", "Remote", "http://y", "2025-01-01", "2026-10-12"] ∈
        reconcile "2026-10-12" [["Acme", "SWE", "NYC", "http://x", "2025-01-01", "2025-06-01"]]
          [Listing.mk "Acme" "SWE" "Remote" "http://y"] :=
  c1_date_first_added_preserved "2026-10-12" "Acme" "SWE" "NYC" "http://x" "2025-01-01"
    "2025-06-01" "Remote" "http://y" [] [] [Listing.mk "Acme" "SWE" "Remote" "http://y"]
    (by decide) (by decide) (by simp) (by simp)

/-- C2 counterexample: two fresh listings sharing the (company, role)
key produce two output rows with the same key — they are not collapsed
to a single row. -/
theorem c2_duplicate_keys_not_collapsed :
    (reconcile "2026-10-12" []
        [Listing.mk "A" "R" "L1" "K1", Listing.mk "A" "R" "L2" "K2"]).map
      (fun row => mkKey (row.getD 0 "") (row.getD 1 ""))
      = ["A_R", "A_R"]
    ∧ (reconcile "2026-10-12" []
        [Listing.mk "A" "R" "L1" "K1", Listing.mk "A" "R" "L2" "K2"]).length = 2
    ∧ (reconcile "2026-10-12" []
        [Listing.mk "A" "R" "L1" "K1", Listing.mk "A" "R" "L2" "K2"]).getD 0 []
      ≠ (reconcile "2026-10-12" []
        [Listing.mk "A" "R" "L1" "K1", Listing.mk "A" "R" "L2" "K2"]).getD 1 [] := by
  decide

/-- C2 amended: the reconciled output has exactly one row per fresh
listing (fetch duplicates are kept, each as its own row); the collapse
to the latest occurrence applies to the prior snapshot's lookup map,
where the last row contributing a key wins. -/
theorem c2_one_row_per_listing (today : String) (existing : List (List String))
    (ints : List Listing) :
    (reconcile today existing ints).length = ints.length
    ∧ ∀ c r rest, c ≠ "" → r ≠ "" →
        lookupDate (existing ++ [c :: r :: rest]) (mkKey c r)
          = some ((c :: r :: rest).getD 4 "") := by
  constructor
  · simp [reconcile]
  · intro c r rest hc hr
    have he : rowEntry (c :: r :: rest) = some (mkKey c r, (c :: r :: rest).getD 4 "") := by
      simp only [rowEntry, if_pos (And.intro hc hr)]
    exact lookupDate_of_entry existing [] _ _ _ he (by simp)

/-- Witness for C2's amended statement. -/
theorem c2_witness :
    (reconcile "2026-10-12" []
        [Listing.mk "A" "R" "L1" "K1", Listing.mk "A" "R" "L2" "K2"]).length = 2
    ∧ lookupDate ([["A", "R", "X", "Y", "old", "z"]] ++ [["A", "R", "L", "K", "new", "w"]])
        (mkKey "A" "R") = some "new" := by
  refine ⟨?_, ?_⟩
  · exact (c2_one_row_per_listing "2026-10-12" []
      [Listing.mk "A" "R" "L1" "K1", Listing.mk "A" "R" "L2" "K2"]).1
  · exact (c2_one_row_per_listing "2026-10-12" [["A", "R", "X", "Y", "old", "z"]] []).2
      "A" "R" ["L", "K", "new", "w"] (by decide) (by decide)

/-- C9: a failed prior-snapshot read is modelled as the empty snapshot;
reconciliation then treats every fresh listing as newly seen, so every
output row's `date_first_added` (column 5) is the run date. -/
theorem c9_read_failure_fresh_dates (today : String) (ints : List Listing) :
    ∀ row ∈ reconcile today (readPrior none) ints, row.getD 4 "" = today := by
  intro row hrow
  simp only [reconcile] at hrow
  obtain ⟨it, hit, rfl⟩ := List.mem_map.mp hrow
  rfl

/-- Witness for C9. -/
theorem c9_witness :
    ((reconcile "2026-10-12" (readPrior none) [Listing.mk "A" "R" "L" "K"]).getD 0 []).getD 4 ""
      = "2026-10-12" :=
  c9_read_failure_fresh_dates "2026-10-12" [Listing.mk "A" "R" "L" "K"] _ (by decide)

/-- C10: a prior-snapshot row with non-empty company and role but fewer
than 5 columns (the last row contributing its key) matched by a fresh
listing yields an output row whose `date_first_added` column is the
empty string — neither the run date nor a preserved prior value. -/
theorem c10_short_row_empty_date
    (today c r loc lnk : String) (rest : List String) (pre post : List (List String))
    (hc : c ≠ "") (hr : r ≠ "")
    (hlen : (c :: r :: rest).length < 5)
    (hpost : ∀ row ∈ post, ∀ w, rowEntry row ≠ some (mkKey c r, w)) :
    reconcileRow today (pre ++ (c :: r :: rest) :: post) (Listing.mk c r loc lnk)
      = [c, r, loc, lnk, "", today] := by
  have he : rowEntry (c :: r :: rest) = some (mkKey c r, "") := by
    simp only [rowEntry, if_pos (And.intro hc hr)]
    rw [getD_four_short _ hlen]
  have hlk := lookupDate_of_entry pre post _ _ _ he hpost
  show [c, r, loc, lnk,
      (lookupDate (pre ++ (c :: r :: rest) :: post) (mkKey c r)).getD today, today]
    = [c, r, loc, lnk, "", today]
  rw [hlk]
  rfl

/-- Witness for C10 at a concrete 3-column prior row. -/
theorem c10_witness :
    reconcileRow "2026-10-12" [["A", "R", "L"]] (Listing.mk "A" "R" "X" "Y")
      = ["A", "R", "X", "Y", "", "2026-10-12"] :=
  c10_short_row_empty_date "2026-10-12" "A" "R" "X" "Y" ["L"] [] []
    (by decide) (by decide) (by decide) (by simp)

/-- Indexing the reconciled output: row `i` is the reconciliation of
listing `i`. -/
theorem reconcile_getD (today : String) (existing : List (List String)) :
    ∀ (ints : List Listing) (i : Nat), i < ints.length →
      (reconcile today existing ints).getD i []
        = reconcileRow today existing (ints.getD i (Listing.mk "" "" "" "")) := by
  intro ints
  induction ints with
  | nil => intro i h; cases h
  | cons a t ih =>
    intro i h
    cases i with
    | zero => rfl
    | succ n => exact ih n (Nat.lt_of_succ_lt_succ h)

/-- C6: the reconciled output has one row per fresh listing, in the
fresh fetch's order (row i carries listing i's company, role, location
and link), and no (company, role) key absent from the fresh fetch —
in particular one only present in the prior snapshot — appears in the
output. -/
theorem c6_order_preserved_and_absent_keys_dropped (today : String)
    (existing : List (List String)) (ints : List Listing) :
    (reconcile today existing ints).length = ints.length
    ∧ (∀ i, i < ints.length →
        ((reconcile today existing ints).getD i []).take 4
          = [(ints.getD i (Listing.mk "" "" "" "")).company,
             (ints.getD i (Listing.mk "" "" "" "")).role,
             (ints.getD i (Listing.mk "" "" "" "")).location,
             (ints.getD i (Listing.mk "" "" "" "")).link])
    ∧ (∀ c r, (∀ it ∈ ints, ¬(it.company = c ∧ it.role = r)) →
        ∀ row ∈ reconcile today existing ints,
          ¬(row.getD 0 "" = c ∧ row.getD 1 "" = r)) := by
  refine ⟨by simp [reconcile], ?_, ?_⟩
  · intro i hi
    rw [reconcile_getD today existing ints i hi]
    rfl
  · intro c r hall row hrow
    simp only [reconcile] at hrow
    obtain ⟨it, hit, rfl⟩ := List.mem_map.mp hrow
    exact hall it hit

/-- Witness for C6. -/
theorem c6_witness :
    ((reconcile "2026-10-12" [] [Listing.mk "A" "R" "L" "K"]).getD 0 []).take 4
      = ["A", "R", "L", "K"]
    ∧ ¬(((reconcile "2026-10-12" [] [Listing.mk "A" "R" "L" "K"]).getD 0 []).getD 0 "" = "B"
        ∧ ((reconcile "2026-10-12" [] [Listing.mk "A" "R" "L" "K"]).getD 0 []).getD 1 "" = "R") := by
  refine ⟨?_, ?_⟩
  · exact (c6_order_preserved_and_absent_keys_dropped "2026-10-12" []
      [Listing.mk "A" "R" "L" "K"]).2.1 0 (by decide)
  · exact (c6_order_preserved_and_absent_keys_dropped "2026-10-12" []
      [Listing.mk "A" "R" "L" "K"]).2.2 "B" "R" (by decide) _ (by decide)

/-- The entry an output row contributes back when the output is reused
as a prior snapshot. -/
theorem rowEntry_reconcileRow (today : String) (existing : List (List String))
    (it : Listing) :
    rowEntry (reconcileRow today existing it)
      = if it.company ≠ "" ∧ it.role ≠ "" then
          some (mkKey it.company it.role,
            (lookupDate existing (mkKey it.company it.role)).getD today)
        else none := by
  rfl

/-- Reconciling against one's own output changes nothing, provided every
listing has a non-empty company and role (as all parsed listings do). -/
theorem reconcile_idem_of_nonempty (today : String) (existing : List (List String))
    (ints : List Listing) (h : ∀ it ∈ ints, it.company ≠ "" ∧ it.role ≠ "") :
    reconcile today (reconcile today existing ints) ints
      = reconcile today existing ints := by
  unfold reconcile
  apply List.map_congr_left
  intro it hit
  obtain ⟨hc, hr⟩ := h it hit
  have hlk : lookupDate (List.map (reconcileRow today existing) ints)
      (mkKey it.company it.role)
      = some ((lookupDate existing (mkKey it.company it.role)).getD today) := by
    apply lookupDate_eq_of_unique
    · intro row hrow w hw
      obtain ⟨it2, hit2, rfl⟩ := List.mem_map.mp hrow
      rw [rowEntry_reconcileRow] at hw
      by_cases h2 : it2.company ≠ "" ∧ it2.role ≠ ""
      · rw [if_pos h2] at hw
        injection hw with hw2
        have hk := congrArg Prod.fst hw2
        have hv := congrArg Prod.snd hw2
        simp only at hk hv
        rw [← hv, hk]
      · rw [if_neg h2] at hw
        exact absurd hw (by simp)
    · refine ⟨reconcileRow today existing it, List.mem_map_of_mem _ hit, ?_⟩
      rw [rowEntry_reconcileRow, if_pos (And.intro hc hr)]
  show [it.company, it.role, it.location, it.link,
      (lookupDate (List.map (reconcileRow today existing) ints)
        (mkKey it.company it.role)).getD today, today]
    = reconcileRow today existing it
  rw [hlk]
  rfl

/-! ### Parser claims -/

/-- Every cell kept by the row splitter is non-empty. -/
theorem splitCells_mem_ne (line : String) (c : String) (h : c ∈ splitCells line) :
    c ≠ "" := by
  have h2 := List.of_mem_filter h
  exact of_decide_eq_true h2

/-- The anchored `\[([^\]]+)\]` match captures a non-empty text. -/
theorem bracketAt_ne_nil (l : List Char) (t : List Char) (h : bracketAt l = some t) :
    t ≠ [] := by
  unfold bracketAt at h
  split at h
  · split at h
    · injection h with h2
      rw [← h2]
      simp
    · exact absurd h (by simp)
  · exact absurd h (by simp)

/-- The searched `\[([^\]]+)\]` match captures a non-empty text. -/
theorem searchBracket_ne_nil (l : List Char) (t : List Char)
    (h : searchBracket l = some t) : t ≠ [] := by
  induction l with
  | nil => exact absurd h (by simp [searchBracket])
  | cons c rest ih =>
    rw [searchBracket] at h
    cases hb : bracketAt (c :: rest) with
    | some t2 =>
      simp only [hb] at h
      injection h with h2
      exact h2 ▸ bracketAt_ne_nil _ _ hb
    | none =>
      simp only [hb] at h
      exact ih h

/-- The role extraction never turns a non-empty cell into an empty role. -/
theorem extractDisplay_ne (cell : String) (h : cell ≠ "") : extractDisplay cell ≠ "" := by
  unfold extractDisplay
  split
  · next t heq =>
    have ht := searchBracket_ne_nil _ _ heq
    intro hcon
    apply ht
    have h2 := congrArg String.data hcon
    exact h2
  · exact h

/-- Every listing emitted for a data row has a non-empty company and a
non-empty role. -/
theorem parseRow_fields (line : String) (it : Listing) (h : parseRow line = some it) :
    it.company ≠ "" ∧ it.role ≠ "" := by
  unfold parseRow at h
  split at h
  · rename_i company_cell role_cell location_cell tail heq
    split at h
    · rename_i hguard
      injection h with h2
      rw [← h2]
      refine ⟨hguard.1, ?_⟩
      apply extractDisplay_ne
      apply splitCells_mem_ne line
      rw [heq]
      simp
    · exact absurd h (by simp)
  · exact absurd h (by simp)

/-- Every listing produced by the line scan has a non-empty company and
role, whatever the flag state. -/
theorem parseLoop_fields (ls : List String) :
    ∀ (hf tb : Bool) (l : Listing), l ∈ parseLoop ls hf tb →
      l.company ≠ "" ∧ l.role ≠ "" := by
  induction ls with
  | nil =>
    intro hf tb l hl
    simp [parseLoop] at hl
  | cons raw rest ih =>
    intro hf tb l hl
    unfold parseLoop at hl
    split at hl
    · exact ih _ _ _ hl
    · split at hl
      · exact ih _ _ _ hl
      · split at hl
        · split at hl
          · rename_i it heq
            rcases List.mem_cons.mp hl with h1 | h1
            · exact h1 ▸ parseRow_fields _ _ heq
            · exact ih _ _ _ h1
          · exact ih _ _ _ hl
        · split at hl
          · simp at hl
          · exact ih _ _ _ hl

/-- Every parsed listing has a non-empty company and role. -/
theorem parse_nonempty_fields (content : String) :
    ∀ l ∈ parse_markdown_table content, l.company ≠ "" ∧ l.role ≠ "" := by
  intro l hl
  exact parseLoop_fields _ _ _ _ hl

/-- C3: reconciliation is idempotent on any parsed fetch — rerunning it
on the same date with the unchanged fetch and the first run's output as
the prior snapshot reproduces the first run's output exactly. -/
theorem c3_reconcile_idempotent (today : String) (existing : List (List String))
    (content : String) :
    reconcile today (reconcile today existing (parse_markdown_table content))
        (parse_markdown_table content)
      = reconcile today existing (parse_markdown_table content) :=
  reconcile_idem_of_nonempty today existing (parse_markdown_table content)
    (parse_nonempty_fields content)

/-- C4 counterexample: on the data row `|a||b|c|` the parser's splitter
drops the interior empty cell, giving three cells, whereas splitting as
the claim describes (interior empty cells kept) gives four; the two
disagree. -/
theorem c4_interior_empty_cells_dropped :
    splitCells "|a||b|c|" = ["a", "b", "c"]
    ∧ splitCellsSpec "|a||b|c|" = ["a", "", "b", "c"]
    ∧ splitCells "|a||b|c|" ≠ splitCellsSpec "|a||b|c|" := by
  decide

/-- C4 amended: the parser splits a data row on the pipe, trims each
fragment and discards every empty fragment — leading, trailing and
interior alike — so each kept cell is non-empty and the kept cells are
a subsequence of the trimmed fragments; rows with fewer than 3 remaining
cells are silently skipped. -/
theorem c4_split_discards_all_empty (line : String) :
    (∀ c ∈ splitCells line, c ≠ "")
    ∧ List.Sublist (splitCells line) ((pySplit '|' line).map pyStrip)
    ∧ ((splitCells line).length < 3 → parseRow line = none) := by
  refine ⟨fun c hc => splitCells_mem_ne line c hc, List.filter_sublist _, ?_⟩
  intro hlen
  unfold parseRow
  split
  · rename_i c0 c1 c2 tail heq
    rw [heq] at hlen
    simp only [List.length_cons] at hlen
    omega
  · rfl

/-- Witness for C4's amended statement. -/
theorem c4_witness :
    parseRow "|a|b|" = none ∧ ("a" ∈ splitCells "|a|b|" → "a" ≠ "") :=
  ⟨(c4_split_discards_all_empty "|a|b|").2.2 (by decide),
   fun h => (c4_split_discards_all_empty "|a|b|").1 "a" h⟩

/-- C5: the emitted link is the URL extracted from the location cell's
markdown link when that is non-empty, else the URL extracted from the
company cell's markdown link, else the empty string; and the document
row `| Acme | SWE | NYC |` of three plain cells parses to company
`Acme` with an empty link. -/
theorem c5_final_link_fallback :
    (∀ (line c0 c1 c2 : String) (tail : List String) (it : Listing),
        splitCells line = c0 :: c1 :: c2 :: tail → parseRow line = some it →
          it.link = (if (extractLink c2).2 ≠ "" then (extractLink c2).2
                     else (extractLink c0).2))
    ∧ parse_markdown_table
        "| Company | Role | Location |\n| --- | --- | --- |\n| Acme | SWE | NYC |"
        = [Listing.mk "Acme" "SWE" "NYC" ""] := by
  constructor
  · intro line c0 c1 c2 tail it heq h
    unfold parseRow at h
    split at h
    · rename_i company_cell role_cell location_cell tail2 heq2
      rw [heq] at heq2
      injection heq2 with e0 heq3
      injection heq3 with e1 heq4
      injection heq4 with e2 e3
      subst e0
      subst e1
      subst e2
      split at h
      · injection h with h2
        rw [← h2]
        by_cases hu : (extractLink c2).2 = ""
        · simp [hu]
        · simp [hu]
      · exact absurd h (by simp)
    · exact absurd h (by simp)
  · decide

/-- Witness for C5 at a concrete data row with both links present. -/
theorem c5_witness :
    Listing.link (Listing.mk "A" "R" "L" "http://a")
      = (if (extractLink "[L](http://a)").2 ≠ "" then (extractLink "[L](http://a)").2
         else (extractLink "[A](http://c)").2) :=
  c5_final_link_fallback.1 "| [A](http://c) | R | [L](http://a) |" "[A](http://c)" "R"
    "[L](http://a)" [] (Listing.mk "A" "R" "L" "http://a") (by decide) (by decide)

/-- If no line is recognised as the table header, the scan stays out of
the table and produces nothing. -/
theorem parseLoop_no_header (ls : List String)
    (h : ∀ l ∈ ls, isHeaderLine (pyStrip l) = false) :
    parseLoop ls false false = [] := by
  induction ls with
  | nil => rfl
  | cons raw rest ih =>
    rw [parseLoop, h raw (List.mem_cons_self _ _)]
    simp only [Bool.and_false, Bool.not_false, Bool.false_and, Bool.and_self,
      if_false, Bool.false_eq_true]
    exact ih fun l hl => h l (List.mem_cons_of_mem _ hl)

/-- After the header, if no line contains a dash run, the separator is
never found and the scan produces nothing. -/
theorem parseLoop_no_sep (ls : List String)
    (h : ∀ l ∈ ls, containsSub (pyStrip l) "---" = false) :
    parseLoop ls true false = [] := by
  induction ls with
  | nil => rfl
  | cons raw rest ih =>
    rw [parseLoop, h raw (List.mem_cons_self _ _)]
    simp only [Bool.not_true, Bool.false_and, Bool.and_false, if_false, Bool.false_eq_true]
    exact ih fun l hl => h l (List.mem_cons_of_mem _ hl)

/-- Lines before the header that are not headers leave the scan state
unchanged. -/
theorem parseLoop_skip_pre (pre : List String) (ls : List String)
    (h : ∀ l ∈ pre, isHeaderLine (pyStrip l) = false) :
    parseLoop (pre ++ ls) false false = parseLoop ls false false := by
  induction pre with
  | nil => rfl
  | cons raw rest ih =>
    rw [List.cons_append, parseLoop, h raw (List.mem_cons_self _ _)]
    simp only [Bool.and_false, Bool.not_false, Bool.false_and, Bool.and_self,
      if_false, Bool.false_eq_true]
    exact ih fun l hl => h l (List.mem_cons_of_mem _ hl)

/-- Seeing the header line flips `header_found` and consumes the line. -/
theorem parseLoop_header_step (hd : String) (ls : List String)
    (h : isHeaderLine (pyStrip hd) = true) :
    parseLoop (hd :: ls) false false = parseLoop ls true false := by
  rw [parseLoop, h]
  simp

/-- C7: if no line of the document is recognised as the table header, or
the header is found but no later line contains a dash run to serve as
the separator, `parse_markdown_table` returns the empty sequence (it is
a total function, so it cannot raise). -/
theorem c7_no_header_or_no_separator_yields_empty (content : String)
    (h : (∀ l ∈ pySplit '\n' content, isHeaderLine (pyStrip l) = false)
       ∨ (∃ pre hd post, pySplit '\n' content = pre ++ hd :: post
            ∧ (∀ l ∈ pre, isHeaderLine (pyStrip l) = false)
            ∧ isHeaderLine (pyStrip hd) = true
            ∧ (∀ l ∈ post, containsSub (pyStrip l) "---" = false))) :
    parse_markdown_table content = [] := by
  unfold parse_markdown_table
  rcases h with h | ⟨pre, hd, post, heq, hpre, hhd, hpost⟩
  · exact parseLoop_no_header _ h
  · rw [heq, parseLoop_skip_pre pre (hd :: post) hpre, parseLoop_header_step hd post hhd]
    exact parseLoop_no_sep post hpost

/-- Witness for C7 on a document with no header line. -/
theorem c7_witness : parse_markdown_table "nothing here" = [] :=
  c7_no_header_or_no_separator_yields_empty "nothing here" (Or.inl (by decide))

/-- C8 counterexample: with a document whose parse yields zero listings,
the run leaves the stored rows untouched — the persisted rows are not
replaced by the empty snapshot. -/
theorem c8_store_not_emptied_on_zero_listings :
    parse_markdown_table "no table" = []
    ∧ main_store "2026-10-12" [["A", "B", "C", "D", "E", "F"]] "no table"
        = [["A", "B", "C", "D", "E", "F"]]
    ∧ main_store "2026-10-12" [["A", "B", "C", "D", "E", "F"]] "no table" ≠ [] := by
  decide

/-- C8 amended: when parsing yields zero listings the run continues to
completion (the store transform is total) but skips the sheet update
entirely, leaving the persisted rows unchanged instead of performing an
empty write. -/
theorem c8_zero_listings_skip_write (today : String) (existing : List (List String))
    (content : String) (h : parse_markdown_table content = []) :
    main_store today existing content = existing := by
  unfold main_store
  rw [h]
  rfl

/-- Witness for C8's amended statement. -/
theorem c8_witness :
    main_store "2026-10-12" [["A", "B", "C", "D", "E", "F"]] "x"
      = [["A", "B", "C", "D", "E", "F"]] :=
  c8_zero_listings_skip_write "2026-10-12" [["A", "B", "C", "D", "E", "F"]] "x" (by decide)
